import Mathlib

/-!
Shallow embedding of the CHIP-8 virtual machine core
(`src/chip8_core/src/lib.rs`) together with proofs checking the
natural-language specification of the repository against the code.

Modelling conventions, fixed once for the whole file:

* Machine integers are `Nat` with explicit reductions: 8-bit arithmetic
  carries `% 256`, 16-bit arithmetic carries `% 65536`.  Rust's
  `wrapping_add`, `overflowing_add` and friends are translated with those
  explicit reductions (release-mode wrapping semantics).
* The fixed-size arrays (`ram`, `screen`, `v_reg`, `keys`) are modelled as
  total functions from `Nat`.  Rust panics on an out-of-range index; the
  theorems about concrete executions therefore carry explicit in-bounds
  hypotheses restricting them to panic-free runs.
* The call stack is a `VecDeque` used only at its back end; it is modelled
  as a `List`, `push_back` appending on the right and `pop_back` reading
  `getLast?`.
* `pop` on an empty stack makes the Rust process print an error and call
  `std::process::exit(5)`.  This observable termination is modelled by the
  distinguished result `ExecResult.exit 5`; every other execution path
  produces `ExecResult.ok`.
* The `random::<u8>()` byte used by opcode `CXKK` is injected as an extra
  argument `rand` of `execute`/`tick` (its low 8 bits are the random byte).
-/

/-- The built-in glyph table (`FONTSET`), 80 bytes, 5 bytes per hex digit. -/
def FONTSET : List Nat :=
  [0xF0, 0x90, 0x90, 0x90, 0xF0,
   0x20, 0x60, 0x20, 0x20, 0x70,
   0xF0, 0x10, 0xF0, 0x80, 0xF0,
   0xF0, 0x10, 0xF0, 0x10, 0xF0,
   0x90, 0x90, 0xF0, 0x10, 0x10,
   0xF0, 0x80, 0xF0, 0x10, 0xF0,
   0xF0, 0x80, 0xF0, 0x90, 0xF0,
   0xF0, 0x10, 0x20, 0x40, 0x40,
   0xF0, 0x90, 0xF0, 0x90, 0xF0,
   0xF0, 0x90, 0xF0, 0x10, 0xF0,
   0xF0, 0x90, 0xF0, 0x90, 0x90,
   0xE0, 0x90, 0xE0, 0x90, 0xE0,
   0xF0, 0x80, 0x80, 0x80, 0xF0,
   0xE0, 0x90, 0x90, 0x90, 0xE0,
   0xF0, 0x80, 0xF0, 0x80, 0xF0,
   0xF0, 0x80, 0xF0, 0x80, 0x80]

/-- The state owned by `Machine` (`struct Machine`, src/chip8_core/src/lib.rs).
`pc`, `i_reg` are u16; `ram`/`v_reg` hold u8 values; `screen` has
64*32 = 2048 cells (row-major, index `y * 64 + x`); `keys` has 16 flags;
`dt`, `st` are the u8 delay and sound timers; `stack` holds u16 return
addresses. -/
structure Machine where
  pc : Nat
  ram : Nat → Nat
  screen : Nat → Bool
  v_reg : Nat → Nat
  i_reg : Nat
  stack : List Nat
  keys : Nat → Bool
  dt : Nat
  st : Nat

/-- Point update of a `Nat`-indexed array of numbers (`arr[i] = x`). -/
def updN (f : Nat → Nat) (i x : Nat) : Nat → Nat :=
  fun k => if k = i then x else f k

/-- Point update of a `Nat`-indexed array of booleans. -/
def updB (f : Nat → Bool) (i : Nat) (x : Bool) : Nat → Bool :=
  fun k => if k = i then x else f k

/-- `Machine::new`: zero all state, `pc = START_ADDR = 0x200`, install the
glyph table in `ram[..80]`. -/
def Machine.new : Machine where
  pc := 512
  ram := fun a => if a < 80 then FONTSET.getD a 0 else 0
  screen := fun _ => false
  v_reg := fun _ => 0
  i_reg := 0
  stack := []
  keys := fun _ => false
  dt := 0
  st := 0

/-- `Machine::load`: copy `data` into `ram` starting at `START_ADDR`
(`self.ram[start..end].copy_from_slice(data)`; the source performs no
bounds check, faithful only while `512 + data.length ≤ 4096`). -/
def Machine.load (m : Machine) (data : List Nat) : Machine :=
  { m with ram := fun a =>
      if 512 ≤ a ∧ a < 512 + data.length then data.getD (a - 512) 0 else m.ram a }

/-- `Machine::reset`: re-create all state as in `new`; the loaded program is
lost. -/
def Machine.reset (_ : Machine) : Machine := Machine.new

/-- `Machine::push`: `self.stack.push_back(val)` — unchecked append at the
back of the deque. -/
def Machine.push (m : Machine) (val : Nat) : Machine :=
  { m with stack := m.stack ++ [val] }

/-- `Machine::pop`: `self.stack.pop_back()`.  The Rust code matches on the
`Option` and terminates the process (`std::process::exit(5)`) when it is
`None`; here the `Option` is returned to the caller (`execute`), which maps
`none` to the distinguished `ExecResult.exit 5`. -/
def Machine.pop (m : Machine) : Option (Nat × Machine) :=
  match m.stack.getLast? with
  | some i => some (i, { m with stack := m.stack.dropLast })
  | none => none

/-- `Machine::tick_timers`: decrement `dt` if nonzero, then decrement `st`
if nonzero (the `st == 1` case only signals BEEP, no state change). -/
def Machine.tick_timers (m : Machine) : Machine :=
  let m1 := if 0 < m.dt then { m with dt := m.dt - 1 } else m
  if 0 < m1.st then { m1 with st := m1.st - 1 } else m1

/-- Iterated `tick_timers`. -/
def tickTimersN : Nat → Machine → Machine
  | 0, m => m
  | n + 1, m => tickTimersN n m.tick_timers

/-- `Machine::keypress`: `self.keys[index] = pressed` (no bounds check in
the source; faithful for `index < 16`). -/
def Machine.keypress (m : Machine) (index : Nat) (pressed : Bool) : Machine :=
  { m with keys := updB m.keys index pressed }

/-- `Machine::get_display`: read-only view of the screen. -/
def Machine.get_display (m : Machine) : Nat → Bool := m.screen

/-- `Machine::fetch`: read the two bytes at `pc`, `pc + 1`, big-endian
combine `(hi << 8) | lo`, and advance `pc` by 2 (u16 arithmetic).  Returns
the opcode together with the advanced machine. -/
def Machine.fetch (m : Machine) : Nat × Machine :=
  ((m.ram m.pc <<< 8) ||| m.ram ((m.pc + 1) % 65536),
   { m with pc := (m.pc + 2) % 65536 })

/-- Result of one decode/execute dispatch: either the next machine state, or
process termination with the given exit status (stack underflow). -/
inductive ExecResult where
  | ok (m : Machine)
  | exit (code : Nat)

/-- `Vx` of the resulting machine, if execution produced one. -/
def ExecResult.vreg (r : ExecResult) (i : Nat) : Option Nat :=
  match r with
  | .ok m => some (m.v_reg i)
  | .exit _ => none

/-- `i_reg` of the resulting machine, if execution produced one. -/
def ExecResult.ireg (r : ExecResult) : Option Nat :=
  match r with
  | .ok m => some m.i_reg
  | .exit _ => none

/-- Call-stack depth of the resulting machine, if execution produced one. -/
def ExecResult.stackLen (r : ExecResult) : Option Nat :=
  match r with
  | .ok m => some m.stack.length
  | .exit _ => none

/-- `pc` of the resulting machine, if execution produced one. -/
def ExecResult.pcOf (r : ExecResult) : Option Nat :=
  match r with
  | .ok m => some m.pc
  | .exit _ => none

/-- The `FX0A` key-wait loop
(`for i in 0..self.keys.len() { if self.keys[i] { ... break; } }`):
first index `i₀ ≤ i < i₀ + fuel` whose key is pressed, scanning upward. -/
def findKeyFrom (keys : Nat → Bool) : Nat → Nat → Option Nat
  | _, 0 => none
  | i, fuel + 1 => if keys i then some i else findKeyFrom keys (i + 1) fuel

/-- The `DXYN` sprite draw (lines 214–237 of the source): for each of the
`b4` sprite rows starting at `ram[i_reg]`, for each of the 8 bits of that
row (most significant first), if the bit is set, toggle the pixel at
`((Vx + i) mod 64, (Vy + j) mod 32)` and accumulate into `flipped` the
pre-toggle value of that pixel.  Afterwards `VF := if flipped then 1 else 0`. -/
def drawSprite (m : Machine) (b2 b3 b4 : Nat) : Machine :=
  let x_start := m.v_reg b2
  let y_start := m.v_reg b3
  let res :=
    (List.range b4).foldl (fun acc j =>
      let pixels := m.ram ((m.i_reg + j) % 65536)
      (List.range 8).foldl (fun acc2 i =>
        if pixels &&& (128 >>> i) ≠ 0 then
          let x := (x_start + i) % 64
          let y := (y_start + j) % 32
          let index := y * 64 + x
          (updB acc2.1 index (!acc2.1 index), acc2.2 || acc2.1 index)
        else acc2) acc) (m.screen, false)
  { m with screen := res.1, v_reg := updN m.v_reg 15 (if res.2 then 1 else 0) }

/-- `Machine::execute`: dispatch on the four nibbles of `op`, mirroring the
Rust `match (byte1, byte2, byte3, byte4)` arm by arm in source order (the
arms are mutually exclusive, so the if-chain has the same semantics).
`rand` injects the `random::<u8>()` byte of opcode `CXKK`.  The only
non-`ok` outcome is `00EE` on an empty stack (`exit 5`). -/
def execute (rand op : Nat) (m : Machine) : ExecResult :=
  let b1 := op / 4096 % 16
  let b2 := op / 256 % 16
  let b3 := op / 16 % 16
  let b4 := op % 16
  -- (0, 0, 0xE, 0): clear screen
  if b1 = 0 ∧ b2 = 0 ∧ b3 = 14 ∧ b4 = 0 then
    ExecResult.ok { m with screen := fun _ => false }
  -- (0, 0, 0xE, 0xE): return, pc := pop
  else if b1 = 0 ∧ b2 = 0 ∧ b3 = 14 ∧ b4 = 14 then
    match m.pop with
    | some (addr, m2) => ExecResult.ok { m2 with pc := addr }
    | none => ExecResult.exit 5
  -- (1, _, _, _): jump
  else if b1 = 1 then
    ExecResult.ok { m with pc := op % 4096 }
  -- (2, _, _, _): call — push current pc, jump
  else if b1 = 2 then
    ExecResult.ok { m.push m.pc with pc := op % 4096 }
  -- (3, _, _, _): skip if Vx == KK
  else if b1 = 3 then
    ExecResult.ok (if m.v_reg b2 = op % 256 then { m with pc := (m.pc + 2) % 65536 } else m)
  -- (4, _, _, _): skip if Vx != KK
  else if b1 = 4 then
    ExecResult.ok (if m.v_reg b2 ≠ op % 256 then { m with pc := (m.pc + 2) % 65536 } else m)
  -- (5, _, _, 0): skip if Vx == Vy
  else if b1 = 5 ∧ b4 = 0 then
    ExecResult.ok (if m.v_reg b2 = m.v_reg b3 then { m with pc := (m.pc + 2) % 65536 } else m)
  -- (6, _, _, _): Vx := KK
  else if b1 = 6 then
    ExecResult.ok { m with v_reg := updN m.v_reg b2 (op % 256) }
  -- (7, _, _, _): Vx := Vx wrapping_add KK
  else if b1 = 7 then
    ExecResult.ok { m with v_reg := updN m.v_reg b2 ((m.v_reg b2 + op % 256) % 256) }
  -- (8, _, _, 0): Vx := Vy
  else if b1 = 8 ∧ b4 = 0 then
    ExecResult.ok { m with v_reg := updN m.v_reg b2 (m.v_reg b3) }
  -- (8, _, _, 1): Vx |= Vy
  else if b1 = 8 ∧ b4 = 1 then
    ExecResult.ok { m with v_reg := updN m.v_reg b2 (m.v_reg b2 ||| m.v_reg b3) }
  -- (8, _, _, 2): Vx &= Vy
  else if b1 = 8 ∧ b4 = 2 then
    ExecResult.ok { m with v_reg := updN m.v_reg b2 (m.v_reg b2 &&& m.v_reg b3) }
  -- (8, _, _, 3): Vx ^= Vy
  else if b1 = 8 ∧ b4 = 3 then
    ExecResult.ok { m with v_reg := updN m.v_reg b2 (m.v_reg b2 ^^^ m.v_reg b3) }
  -- (8, _, _, 4): (Vx, carry) := Vx overflowing_add Vy; then VF := carry
  else if b1 = 8 ∧ b4 = 4 then
    let sum := m.v_reg b2 + m.v_reg b3
    let v2 := updN (updN m.v_reg b2 (sum % 256)) 15 (if 256 ≤ sum then 1 else 0)
    ExecResult.ok { m with v_reg := v2 }
  -- (8, _, _, 5): (Vx, borrow) := Vx overflowing_sub Vy; then VF := !borrow
  else if b1 = 8 ∧ b4 = 5 then
    let v2 := updN (updN m.v_reg b2 ((m.v_reg b2 + 256 - m.v_reg b3) % 256)) 15
      (if m.v_reg b2 < m.v_reg b3 then 0 else 1)
    ExecResult.ok { m with v_reg := v2 }
  -- (8, _, _, 6): VF := Vx & 1, then Vx >>= 1 (in that order, reads after the
  -- VF write as in the source)
  else if b1 = 8 ∧ b4 = 6 then
    let v1 := updN m.v_reg 15 (m.v_reg b2 &&& 1)
    ExecResult.ok { m with v_reg := updN v1 b2 (v1 b2 >>> 1) }
  -- (8, _, _, 7): (Vx, borrow) := Vy overflowing_sub Vx; then VF := borrow
  else if b1 = 8 ∧ b4 = 7 then
    let v2 := updN (updN m.v_reg b2 ((m.v_reg b3 + 256 - m.v_reg b2) % 256)) 15
      (if m.v_reg b3 < m.v_reg b2 then 1 else 0)
    ExecResult.ok { m with v_reg := v2 }
  -- (8, _, _, 0xE): VF := (Vx >> 7) & 1, then Vx <<= 1 (u8 wrap)
  else if b1 = 8 ∧ b4 = 14 then
    let v1 := updN m.v_reg 15 ((m.v_reg b2 >>> 7) &&& 1)
    ExecResult.ok { m with v_reg := updN v1 b2 ((v1 b2 <<< 1) % 256) }
  -- (9, _, _, 0): skip if Vx != Vy
  else if b1 = 9 ∧ b4 = 0 then
    ExecResult.ok (if m.v_reg b2 ≠ m.v_reg b3 then { m with pc := (m.pc + 2) % 65536 } else m)
  -- (0xA, _, _, _): i_reg := NNN
  else if b1 = 10 then
    ExecResult.ok { m with i_reg := op % 4096 }
  -- (0xB, _, _, _): pc := V0 + NNN (u16)
  else if b1 = 11 then
    ExecResult.ok { m with pc := (m.v_reg 0 + op % 4096) % 65536 }
  -- (0xC, _, _, _): Vx := random u8 & KK
  else if b1 = 12 then
    ExecResult.ok { m with v_reg := updN m.v_reg b2 ((rand % 256) &&& (op % 256)) }
  -- (0xD, _, _, _): draw sprite
  else if b1 = 13 then
    ExecResult.ok (drawSprite m b2 b3 b4)
  -- (0xE, _, 9, 0xE): skip if key Vx pressed
  else if b1 = 14 ∧ b3 = 9 ∧ b4 = 14 then
    ExecResult.ok (if m.keys (m.v_reg b2) then { m with pc := (m.pc + 2) % 65536 } else m)
  -- (0xE, _, 0xA, 1): skip if key Vx not pressed
  else if b1 = 14 ∧ b3 = 10 ∧ b4 = 1 then
    ExecResult.ok (if !m.keys (m.v_reg b2) then { m with pc := (m.pc + 2) % 65536 } else m)
  -- (0xF, _, 0, 7): Vx := dt
  else if b1 = 15 ∧ b3 = 0 ∧ b4 = 7 then
    ExecResult.ok { m with v_reg := updN m.v_reg b2 m.dt }
  -- (0xF, _, 0, 0xA): wait for key — lowest pressed key into Vx, else pc -= 2
  else if b1 = 15 ∧ b3 = 0 ∧ b4 = 10 then
    match findKeyFrom m.keys 0 16 with
    | some i => ExecResult.ok { m with v_reg := updN m.v_reg b2 i }
    | none => ExecResult.ok { m with pc := (m.pc + 65534) % 65536 }
  -- (0xF, _, 1, 5): dt := Vx
  else if b1 = 15 ∧ b3 = 1 ∧ b4 = 5 then
    ExecResult.ok { m with dt := m.v_reg b2 }
  -- (0xF, _, 1, 8): st := Vx
  else if b1 = 15 ∧ b3 = 1 ∧ b4 = 8 then
    ExecResult.ok { m with st := m.v_reg b2 }
  -- (0xF, _, 1, 0xE): i_reg := i_reg wrapping_add Vx (u16)
  else if b1 = 15 ∧ b3 = 1 ∧ b4 = 14 then
    ExecResult.ok { m with i_reg := (m.i_reg + m.v_reg b2) % 65536 }
  -- (0xF, _, 2, 9): i_reg := Vx * 5 — the multiplication is u8, so it wraps
  -- modulo 256 before the widening cast to u16
  else if b1 = 15 ∧ b3 = 2 ∧ b4 = 9 then
    ExecResult.ok { m with i_reg := m.v_reg b2 * 5 % 256 }
  -- (0xF, _, 3, 3): BCD of Vx into ram[i_reg .. i_reg+2], the loop writing
  -- the ones digit (at i_reg + 2) first
  else if b1 = 15 ∧ b3 = 3 ∧ b4 = 3 then
    let res := (List.range 3).foldl (fun acc i =>
      (updN acc.1 ((m.i_reg + (2 - i)) % 65536) (acc.2 % 10), acc.2 / 10))
      (m.ram, m.v_reg b2)
    ExecResult.ok { m with ram := res.1 }
  -- (0xF, _, 5, 5): store V0..=Vx into ram at i_reg
  else if b1 = 15 ∧ b3 = 5 ∧ b4 = 5 then
    let ram2 := (List.range (b2 + 1)).foldl
      (fun acc index => updN acc ((m.i_reg + index) % 65536) (m.v_reg index)) m.ram
    ExecResult.ok { m with ram := ram2 }
  -- (0xF, _, 6, 5): load V0..=Vx from ram at i_reg
  else if b1 = 15 ∧ b3 = 6 ∧ b4 = 5 then
    let v2 := (List.range (b2 + 1)).foldl
      (fun acc index => updN acc index (m.ram ((m.i_reg + index) % 65536))) m.v_reg
    ExecResult.ok { m with v_reg := v2 }
  -- (_, _, _, _): unrecognized opcodes are a silent no-op
  else
    ExecResult.ok m

/-- `Machine::tick`: one fetch/decode/execute step. -/
def tick (rand : Nat) (m : Machine) : ExecResult :=
  execute rand m.fetch.1 m.fetch.2

/-- Iterated `tick` (propagating a fatal exit). -/
def ticks (rand : Nat) : Nat → Machine → ExecResult
  | 0, m => ExecResult.ok m
  | n + 1, m =>
    match tick rand m with
    | ExecResult.ok m2 => ticks rand n m2
    | ExecResult.exit c => ExecResult.exit c

/-- The nibble conditions of the recognized arms of `execute`, as one
boolean predicate: `recognized op = false` exactly when `op` falls through
to the final catch-all arm. -/
def recognized (op : Nat) : Bool :=
  let b1 := op / 4096 % 16
  let b2 := op / 256 % 16
  let b3 := op / 16 % 16
  let b4 := op % 16
  (b1 == 0 && b2 == 0 && b3 == 14 && (b4 == 0 || b4 == 14)) ||
  b1 == 1 || b1 == 2 || b1 == 3 || b1 == 4 || (b1 == 5 && b4 == 0) ||
  b1 == 6 || b1 == 7 ||
  (b1 == 8 && (b4 == 0 || b4 == 1 || b4 == 2 || b4 == 3 || b4 == 4 ||
    b4 == 5 || b4 == 6 || b4 == 7 || b4 == 14)) ||
  (b1 == 9 && b4 == 0) || b1 == 10 || b1 == 11 || b1 == 12 || b1 == 13 ||
  (b1 == 14 && ((b3 == 9 && b4 == 14) || (b3 == 10 && b4 == 1))) ||
  (b1 == 15 && ((b3 == 0 && b4 == 7) || (b3 == 0 && b4 == 10) ||
    (b3 == 1 && b4 == 5) || (b3 == 1 && b4 == 8) || (b3 == 1 && b4 == 14) ||
    (b3 == 2 && b4 == 9) || (b3 == 3 && b4 == 3) || (b3 == 5 && b4 == 5) ||
    (b3 == 6 && b4 == 5)))

/-! ### Auxiliary definitions used by the claim proofs and witnesses -/

/-- A machine holding the 8-bit value 255 in `V0`. -/
def c9cexM : Machine :=
  { Machine.new with v_reg := fun i => if i = 0 then 255 else 0 }

/-- A machine holding 200 in `VF` and 100 in `V0`. -/
def c1cexM : Machine :=
  { Machine.new with v_reg := fun i => if i = 15 then 200 else if i = 0 then 100 else 0 }

/-- A program image of 17 chained subroutine calls: the instruction at
`0x200 + 2k` is `2NNN` with `NNN = 0x202 + 2k`, so after 17 ticks 17 return
addresses have been pushed and none popped. -/
def c4prog : List Nat :=
  [0x22, 0x02, 0x22, 0x04, 0x22, 0x06, 0x22, 0x08, 0x22, 0x0A, 0x22, 0x0C,
   0x22, 0x0E, 0x22, 0x10, 0x22, 0x12, 0x22, 0x14, 0x22, 0x16, 0x22, 0x18,
   0x22, 0x1A, 0x22, 0x1C, 0x22, 0x1E, 0x22, 0x20, 0x22, 0x22]

/-- A machine whose program is the single instruction `F30A` at 0x200. -/
def c7M : Machine :=
  { Machine.new with ram := fun a => if a = 512 then 243 else if a = 513 then 10 else 0 }

/-- `c7M` with keys 3 and 7 pressed. -/
def c7Mk : Machine :=
  { c7M with keys := fun i => i == 3 || i == 7 }

/-- A machine with `2300` (call 0x300) at 0x200 and `00EE` at 0x300. -/
def c3M : Machine :=
  { Machine.new with ram := fun a =>
      if a = 512 then 35 else if a = 513 then 0 else
      if a = 768 then 0 else if a = 769 then 238 else 0 }

/-- The `(row, bit)` pairs `(j, i)` visited by the `DXYN` double loop, in
visit order: all `(j, i)` with `j < n`, `i < 8`. -/
def pairsUpTo : Nat → List (Nat × Nat)
  | 0 => []
  | n + 1 => pairsUpTo n ++ (List.range 8).map (Prod.mk n)

/-- One iteration of the `DXYN` inner loop, as a function of the loop-fixed
data (`ramf`, `ireg`, `x0 = Vx`, `y0 = Vy`) and the visited pair
`p = (j, i)`, acting on the accumulator `(screen, flipped)`. -/
def dStep (ramf : Nat → Nat) (ireg x0 y0 : Nat)
    (acc : (Nat → Bool) × Bool) (p : Nat × Nat) : (Nat → Bool) × Bool :=
  if ramf ((ireg + p.1) % 65536) &&& (128 >>> p.2) ≠ 0 then
    let x := (x0 + p.2) % 64
    let y := (y0 + p.1) % 32
    let index := y * 64 + x
    (updB acc.1 index (!acc.1 index), acc.2 || acc.1 index)
  else acc

/-- The screen index targeted by pair `p = (j, i)`. -/
abbrev dIdx (x0 y0 : Nat) (p : Nat × Nat) : Nat :=
  ((y0 + p.1) % 32) * 64 + ((x0 + p.2) % 64)

/-- Whether pair `p = (j, i)` toggles its pixel (sprite bit set). -/
abbrev dHit (ramf : Nat → Nat) (ireg : Nat) (p : Nat × Nat) : Prop :=
  ramf ((ireg + p.1) % 65536) &&& (128 >>> p.2) ≠ 0

/-- A machine about to draw the 5-row glyph at `ram[0]` at position
`(V0, V1) = (62, 30)` (wrapping both screen edges). -/
def c5M : Machine :=
  { Machine.new with v_reg := fun i => if i = 0 then 62 else if i = 1 then 30 else 0 }

/-! ### Small helper lemmas -/

theorem updN_self (f : Nat → Nat) (i x : Nat) : updN f i x i = x := by
  simp [updN]

theorem updN_ne (f : Nat → Nat) (i x k : Nat) (h : k ≠ i) : updN f i x k = f k := by
  simp [updN, h]

theorem shiftLeft8_lor (a b : Nat) (hb : b < 256) : (a <<< 8) ||| b = a * 256 + b := by
  have hb' : b < 2 ^ 8 := by simpa using hb
  have h := Nat.mul_add_lt_is_or hb' a
  rw [Nat.shiftLeft_eq]
  calc a * 2 ^ 8 ||| b = 2 ^ 8 * a ||| b := by rw [Nat.mul_comm]
    _ = 2 ^ 8 * a + b := h.symm
    _ = a * 256 + b := by rw [Nat.mul_comm]

/-! ### C2 — stack underflow is a distinguished fatal outcome -/

/-- Claim C2: executing `00EE` with an empty call stack produces the
distinguished fatal outcome `exit 5` (the reference terminates the process
with exit status 5); it never yields an `ok` machine state, so execution
never silently continues with a wrapped or default popped value. -/
theorem c2_stack_underflow_fatal (r : Nat) (m : Machine) (h : m.stack = []) :
    execute r 0x00EE m = ExecResult.exit 5 ∧
      ∀ m2, execute r 0x00EE m ≠ ExecResult.ok m2 := by
  have hpop : m.pop = none := by simp [Machine.pop, h]
  have h1 : execute r 0x00EE m = ExecResult.exit 5 := by
    simp [execute, hpop]
  exact ⟨h1, fun m2 hc => by rw [h1] at hc; exact ExecResult.noConfusion hc⟩

/-- Witness for C2 at a concrete input: the fresh machine has an empty
stack, and `00EE` then exits with status 5. -/
theorem c2_stack_underflow_fatal_witness :
    execute 0 0x00EE Machine.new = ExecResult.exit 5 ∧
      ∀ m2, execute 0 0x00EE Machine.new ≠ ExecResult.ok m2 :=
  c2_stack_underflow_fatal 0 Machine.new rfl

/-! ### C9 — FX29 glyph address: the multiplication is u8 and wraps -/

/-- Counterexample to claim C9 as stated: with `V0 = 255` (an 8-bit value),
`F029` sets the index register to `255 * 5 mod 256 = 251`, not to
`255 * 5 = 1275` — the source multiplies in `u8` before widening to `u16`. -/
theorem c9_counterexample :
    (execute 0 0xF029 c9cexM).ireg = some 251 ∧ (251 : Nat) ≠ 255 * 5 := by
  decide

/-- Claim C9 as amended: `FX29` sets the index register to `(Vx * 5) mod 256`
(u8 multiplication, wrapping); for `Vx ≤ 51` — in particular for the digit
values 0–15 the instruction is meant for — this equals `Vx * 5`. -/
theorem c9_amended_fx29 (r X : Nat) (m : Machine) (hX : X < 16) :
    ∃ m2, execute r (0xF029 + X * 256) m = ExecResult.ok m2 ∧
      m2.i_reg = m.v_reg X * 5 % 256 ∧
      (m.v_reg X ≤ 51 → m2.i_reg = m.v_reg X * 5) := by
  have e1 : (0xF029 + X * 256) / 4096 % 16 = 15 := by omega
  have e2 : (0xF029 + X * 256) / 256 % 16 = X := by omega
  have e3 : (0xF029 + X * 256) / 16 % 16 = 2 := by omega
  have e4 : (0xF029 + X * 256) % 16 = 9 := by omega
  simp only [execute, e1, e2, e3, e4]
  norm_num
  omega

/-- Witness for C9's amended theorem at `X = 0` on the fresh machine
(`V0 = 0`, so the glyph address is `0`). -/
theorem c9_amended_fx29_witness :
    ∃ m2, execute 0 (0xF029 + 0 * 256) Machine.new = ExecResult.ok m2 ∧
      m2.i_reg = Machine.new.v_reg 0 * 5 % 256 ∧
      (Machine.new.v_reg 0 ≤ 51 → m2.i_reg = Machine.new.v_reg 0 * 5) :=
  c9_amended_fx29 0 0 Machine.new (by decide)

/-! ### C1 — 8XY4: wrapping add with carry into VF -/

/-- Counterexample to claim C1 as stated "for every choice of register
indices X and Y": take `X = 0xF`, `Y = 0`, `a = VF = 200`, `b = V0 = 100`.
The claim demands `Vx = (200 + 100) mod 256 = 44`, but the source assigns
the wrapped sum to `Vx` first and then overwrites `VF` — the same register —
with the carry flag, so `V15` ends at `1`, not `44`. -/
theorem c1_counterexample :
    (execute 0 0x8F04 c1cexM).vreg 15 = some 1 ∧ (1 : Nat) ≠ (200 + 100) % 256 := by
  decide

/-- Claim C1 as amended: for register indices `X ≠ 0xF` (and any `Y`),
`8XY4` sets `Vx` to `(a + b) mod 256` and `VF` to 1 iff `a + b > 255`
(else 0), where `a`, `b` are the 8-bit values held in `Vx`, `Vy`.  When
`X = 0xF` the final write of the carry flag wins, so `Vx (= VF)` holds the
carry flag instead of the wrapped sum. -/
theorem c1_amended_8xy4 (r X Y : Nat) (m : Machine) (hX : X < 16) (hY : Y < 16)
    (hX15 : X ≠ 15) (ha : m.v_reg X < 256) (hb : m.v_reg Y < 256) :
    ∃ m2, execute r (0x8004 + X * 256 + Y * 16) m = ExecResult.ok m2 ∧
      m2.v_reg X = (m.v_reg X + m.v_reg Y) % 256 ∧
      (m2.v_reg 15 = 1 ↔ 255 < m.v_reg X + m.v_reg Y) ∧
      (m2.v_reg 15 = 0 ↔ m.v_reg X + m.v_reg Y ≤ 255) := by
  have e1 : (0x8004 + X * 256 + Y * 16) / 4096 % 16 = 8 := by omega
  have e2 : (0x8004 + X * 256 + Y * 16) / 256 % 16 = X := by omega
  have e3 : (0x8004 + X * 256 + Y * 16) / 16 % 16 = Y := by omega
  have e4 : (0x8004 + X * 256 + Y * 16) % 16 = 4 := by omega
  simp only [execute, e1, e2, e3, e4]
  norm_num [updN, hX15]
  omega

/-- Witness for C1's amended theorem at `X = 1`, `Y = 2` on a machine with
`V1 = 200`, `V2 = 100` (overflowing case: `V1` becomes 44 and `VF` 1). -/
theorem c1_amended_8xy4_witness :
    ∃ m2,
      execute 0 (0x8004 + 1 * 256 + 2 * 16)
        { Machine.new with v_reg := fun i => if i = 1 then 200 else if i = 2 then 100 else 0 } =
        ExecResult.ok m2 ∧
      m2.v_reg 1 = (200 + 100) % 256 ∧
      (m2.v_reg 15 = 1 ↔ 255 < 200 + 100) ∧
      (m2.v_reg 15 = 0 ↔ 200 + 100 ≤ 255) := by
  have h := c1_amended_8xy4 0 1 2
    { Machine.new with v_reg := fun i => if i = 1 then 200 else if i = 2 then 100 else 0 }
    (by decide) (by decide) (by decide) (by decide) (by decide)
  simpa using h

/-! ### C4 — the call stack is not actually capped at 16 frames -/

/-- Counterexample to claim C4 as stated: the state reached from `new` by
`load c4prog` followed by 17 ticks holds 17 > 16 return addresses.
`VecDeque::with_capacity(16)` only preallocates; `push_back` in
`Machine::push` never checks a capacity, so calls grow the stack past 16. -/
theorem c4_counterexample :
    (ticks 0 17 (Machine.new.load c4prog)).stackLen = some 17 ∧ 16 < 17 := by
  constructor
  · decide
  · decide

/-- Claim C4 as amended: 16 is only the preallocated capacity of the deque,
not a bound — a subroutine call `2NNN` always appends exactly one return
address, whatever the current depth, so any depth is reachable (17 nested
calls reach depth 17) and the at-most-16 invariant holds only for
well-formed programs. -/
theorem c4_amended_push_unchecked (r op : Nat) (m : Machine)
    (h1 : op / 4096 % 16 = 2) :
    ∃ m2, execute r op m = ExecResult.ok m2 ∧
      m2.stack.length = m.stack.length + 1 ∧ m2.pc = op % 4096 := by
  simp only [execute, h1]
  norm_num [Machine.push]

/-- Witness for C4's amended theorem: a call opcode `0x2ABC` executed on the
fresh machine pushes one frame. -/
theorem c4_amended_push_unchecked_witness :
    ∃ m2, execute 0 0x2ABC Machine.new = ExecResult.ok m2 ∧
      m2.stack.length = Machine.new.stack.length + 1 ∧ m2.pc = 0x2ABC % 4096 :=
  c4_amended_push_unchecked 0 0x2ABC Machine.new (by decide)

/-! ### C8 — timers decrement by one and floor at zero -/

theorem tick_timers_dt (m : Machine) : m.tick_timers.dt = m.dt - 1 := by
  simp only [Machine.tick_timers]
  split_ifs <;> simp_all

theorem tick_timers_st (m : Machine) : m.tick_timers.st = m.st - 1 := by
  simp only [Machine.tick_timers]
  split_ifs <;> simp_all

theorem tickTimersN_dt_zero (n : Nat) (m : Machine) (h : m.dt = 0) :
    (tickTimersN n m).dt = 0 := by
  induction n generalizing m with
  | zero => simpa [tickTimersN] using h
  | succ n ih =>
    rw [tickTimersN]
    exact ih _ (by rw [tick_timers_dt, h])

theorem tickTimersN_st_zero (n : Nat) (m : Machine) (h : m.st = 0) :
    (tickTimersN n m).st = 0 := by
  induction n generalizing m with
  | zero => simpa [tickTimersN] using h
  | succ n ih =>
    rw [tickTimersN]
    exact ih _ (by rw [tick_timers_st, h])

/-- Claim C8: each `tick_timers` call decrements the delay timer by exactly
1 if it is nonzero and leaves it at 0 if it is 0 (truncated subtraction
`dt - 1` on `Nat` captures both, i.e. no wrap below zero), and independently
does the same for the sound timer; consequently a timer that starts at 0
stays at 0 under any number of ticks. -/
theorem c8_timers_floor_at_zero (m : Machine) (n : Nat) :
    m.tick_timers.dt = m.dt - 1 ∧ m.tick_timers.st = m.st - 1 ∧
      (m.dt = 0 → (tickTimersN n m).dt = 0) ∧
      (m.st = 0 → (tickTimersN n m).st = 0) :=
  ⟨tick_timers_dt m, tick_timers_st m,
   tickTimersN_dt_zero n m, tickTimersN_st_zero n m⟩

/-- Witness for C8 on the fresh machine (both timers 0) and 9 timer ticks:
the implications are discharged with `rfl`. -/
theorem c8_timers_floor_at_zero_witness :
    (tickTimersN 9 Machine.new).dt = 0 ∧ (tickTimersN 9 Machine.new).st = 0 :=
  ⟨(c8_timers_floor_at_zero Machine.new 9).2.2.1 rfl,
   (c8_timers_floor_at_zero Machine.new 9).2.2.2 rfl⟩

/-! ### C10 — FX55/FX65 do not modify the index register -/

/-- Claim C10: for every register index `X` and machine state (restricted by
`hb` to the states where the Rust slice indexing `ram[i_reg + index]` cannot
panic), `FX55` (store `V0..Vx` at `i_reg`) and `FX65` (load `V0..Vx` from
`i_reg`) both leave the index register itself unchanged — this variant of
the instruction never adds `X + 1` to `i_reg`. -/
theorem c10_fx55_fx65_preserve_ireg (r X : Nat) (m : Machine) (hX : X < 16)
    (hb : m.i_reg + X < 4096) :
    (∃ m2, execute r (0xF055 + X * 256) m = ExecResult.ok m2 ∧
      m2.i_reg = m.i_reg) ∧
    (∃ m2, execute r (0xF065 + X * 256) m = ExecResult.ok m2 ∧
      m2.i_reg = m.i_reg) := by
  constructor
  · have e1 : (0xF055 + X * 256) / 4096 % 16 = 15 := by omega
    have e2 : (0xF055 + X * 256) / 256 % 16 = X := by omega
    have e3 : (0xF055 + X * 256) / 16 % 16 = 5 := by omega
    have e4 : (0xF055 + X * 256) % 16 = 5 := by omega
    simp only [execute, e1, e2, e3, e4]
    norm_num
  · have e1 : (0xF065 + X * 256) / 4096 % 16 = 15 := by omega
    have e2 : (0xF065 + X * 256) / 256 % 16 = X := by omega
    have e3 : (0xF065 + X * 256) / 16 % 16 = 6 := by omega
    have e4 : (0xF065 + X * 256) % 16 = 5 := by omega
    simp only [execute, e1, e2, e3, e4]
    norm_num

/-- Witness for C10 at `X = 3` on the fresh machine (`i_reg = 0`). -/
theorem c10_fx55_fx65_preserve_ireg_witness :
    (∃ m2, execute 0 (0xF055 + 3 * 256) Machine.new = ExecResult.ok m2 ∧
      m2.i_reg = Machine.new.i_reg) ∧
    (∃ m2, execute 0 (0xF065 + 3 * 256) Machine.new = ExecResult.ok m2 ∧
      m2.i_reg = Machine.new.i_reg) :=
  c10_fx55_fx65_preserve_ireg 0 3 Machine.new (by decide) (by decide)

theorem execute_unrecognized (r op : Nat) (m : Machine) (h : recognized op = false) :
    execute r op m = ExecResult.ok m := by
  have n1 : ¬(op / 4096 % 16 = 0 ∧ op / 256 % 16 = 0 ∧ op / 16 % 16 = 14 ∧ op % 16 = 0) :=
    fun hc => by simp [recognized, hc.1, hc.2.1, hc.2.2.1, hc.2.2.2] at h
  have n2 : ¬(op / 4096 % 16 = 0 ∧ op / 256 % 16 = 0 ∧ op / 16 % 16 = 14 ∧ op % 16 = 14) :=
    fun hc => by simp [recognized, hc.1, hc.2.1, hc.2.2.1, hc.2.2.2] at h
  have n3 : ¬(op / 4096 % 16 = 1) := fun hc => by simp [recognized, hc] at h
  have n4 : ¬(op / 4096 % 16 = 2) := fun hc => by simp [recognized, hc] at h
  have n5 : ¬(op / 4096 % 16 = 3) := fun hc => by simp [recognized, hc] at h
  have n6 : ¬(op / 4096 % 16 = 4) := fun hc => by simp [recognized, hc] at h
  have n7 : ¬(op / 4096 % 16 = 5 ∧ op % 16 = 0) :=
    fun hc => by simp [recognized, hc.1, hc.2] at h
  have n8 : ¬(op / 4096 % 16 = 6) := fun hc => by simp [recognized, hc] at h
  have n9 : ¬(op / 4096 % 16 = 7) := fun hc => by simp [recognized, hc] at h
  have n10 : ¬(op / 4096 % 16 = 8 ∧ op % 16 = 0) :=
    fun hc => by simp [recognized, hc.1, hc.2] at h
  have n11 : ¬(op / 4096 % 16 = 8 ∧ op % 16 = 1) :=
    fun hc => by simp [recognized, hc.1, hc.2] at h
  have n12 : ¬(op / 4096 % 16 = 8 ∧ op % 16 = 2) :=
    fun hc => by simp [recognized, hc.1, hc.2] at h
  have n13 : ¬(op / 4096 % 16 = 8 ∧ op % 16 = 3) :=
    fun hc => by simp [recognized, hc.1, hc.2] at h
  have n14 : ¬(op / 4096 % 16 = 8 ∧ op % 16 = 4) :=
    fun hc => by simp [recognized, hc.1, hc.2] at h
  have n15 : ¬(op / 4096 % 16 = 8 ∧ op % 16 = 5) :=
    fun hc => by simp [recognized, hc.1, hc.2] at h
  have n16 : ¬(op / 4096 % 16 = 8 ∧ op % 16 = 6) :=
    fun hc => by simp [recognized, hc.1, hc.2] at h
  have n17 : ¬(op / 4096 % 16 = 8 ∧ op % 16 = 7) :=
    fun hc => by simp [recognized, hc.1, hc.2] at h
  have n18 : ¬(op / 4096 % 16 = 8 ∧ op % 16 = 14) :=
    fun hc => by simp [recognized, hc.1, hc.2] at h
  have n19 : ¬(op / 4096 % 16 = 9 ∧ op % 16 = 0) :=
    fun hc => by simp [recognized, hc.1, hc.2] at h
  have n20 : ¬(op / 4096 % 16 = 10) := fun hc => by simp [recognized, hc] at h
  have n21 : ¬(op / 4096 % 16 = 11) := fun hc => by simp [recognized, hc] at h
  have n22 : ¬(op / 4096 % 16 = 12) := fun hc => by simp [recognized, hc] at h
  have n23 : ¬(op / 4096 % 16 = 13) := fun hc => by simp [recognized, hc] at h
  have n24 : ¬(op / 4096 % 16 = 14 ∧ op / 16 % 16 = 9 ∧ op % 16 = 14) :=
    fun hc => by simp [recognized, hc.1, hc.2.1, hc.2.2] at h
  have n25 : ¬(op / 4096 % 16 = 14 ∧ op / 16 % 16 = 10 ∧ op % 16 = 1) :=
    fun hc => by simp [recognized, hc.1, hc.2.1, hc.2.2] at h
  have n26 : ¬(op / 4096 % 16 = 15 ∧ op / 16 % 16 = 0 ∧ op % 16 = 7) :=
    fun hc => by simp [recognized, hc.1, hc.2.1, hc.2.2] at h
  have n27 : ¬(op / 4096 % 16 = 15 ∧ op / 16 % 16 = 0 ∧ op % 16 = 10) :=
    fun hc => by simp [recognized, hc.1, hc.2.1, hc.2.2] at h
  have n28 : ¬(op / 4096 % 16 = 15 ∧ op / 16 % 16 = 1 ∧ op % 16 = 5) :=
    fun hc => by simp [recognized, hc.1, hc.2.1, hc.2.2] at h
  have n29 : ¬(op / 4096 % 16 = 15 ∧ op / 16 % 16 = 1 ∧ op % 16 = 8) :=
    fun hc => by simp [recognized, hc.1, hc.2.1, hc.2.2] at h
  have n30 : ¬(op / 4096 % 16 = 15 ∧ op / 16 % 16 = 1 ∧ op % 16 = 14) :=
    fun hc => by simp [recognized, hc.1, hc.2.1, hc.2.2] at h
  have n31 : ¬(op / 4096 % 16 = 15 ∧ op / 16 % 16 = 2 ∧ op % 16 = 9) :=
    fun hc => by simp [recognized, hc.1, hc.2.1, hc.2.2] at h
  have n32 : ¬(op / 4096 % 16 = 15 ∧ op / 16 % 16 = 3 ∧ op % 16 = 3) :=
    fun hc => by simp [recognized, hc.1, hc.2.1, hc.2.2] at h
  have n33 : ¬(op / 4096 % 16 = 15 ∧ op / 16 % 16 = 5 ∧ op % 16 = 5) :=
    fun hc => by simp [recognized, hc.1, hc.2.1, hc.2.2] at h
  have n34 : ¬(op / 4096 % 16 = 15 ∧ op / 16 % 16 = 6 ∧ op % 16 = 5) :=
    fun hc => by simp [recognized, hc.1, hc.2.1, hc.2.2] at h
  simp only [execute, if_neg n1, if_neg n2, if_neg n3, if_neg n4, if_neg n5,
    if_neg n6, if_neg n7, if_neg n8, if_neg n9, if_neg n10, if_neg n11,
    if_neg n12, if_neg n13, if_neg n14, if_neg n15, if_neg n16, if_neg n17,
    if_neg n18, if_neg n19, if_neg n20, if_neg n21, if_neg n22, if_neg n23,
    if_neg n24, if_neg n25, if_neg n26, if_neg n27, if_neg n28, if_neg n29,
    if_neg n30, if_neg n31, if_neg n32, if_neg n33, if_neg n34]

/-- Claim C6: a tick that fetches an opcode matching no pattern of the
closed instruction table changes nothing but the fetch itself — memory,
registers, index register, stack, display, timers and keys are all
unchanged and `pc` advances by exactly 2.  (`hpc` keeps the two fetch reads
inside RAM, where the Rust indexing cannot panic.) -/
theorem c6_unrecognized_is_noop (r : Nat) (m : Machine) (hpc : m.pc + 1 < 4096)
    (hunrec : recognized m.fetch.1 = false) :
    tick r m = ExecResult.ok { m with pc := m.pc + 2 } := by
  have h2 : (m.pc + 2) % 65536 = m.pc + 2 := Nat.mod_eq_of_lt (by omega)
  show execute r m.fetch.1 m.fetch.2 = _
  rw [execute_unrecognized r _ _ hunrec]
  simp [Machine.fetch, h2]

/-- Witness for C6: the fresh machine reads opcode `0x0000` (RAM above the
glyph table is zero), which is unrecognized, and the tick only advances
`pc` from 0x200 to 0x202. -/
theorem c6_unrecognized_is_noop_witness :
    tick 0 Machine.new = ExecResult.ok { Machine.new with pc := Machine.new.pc + 2 } :=
  c6_unrecognized_is_noop 0 Machine.new (by decide) (by decide)

/-! ### C7 — FX0A blocks until a key is pressed -/

/-- `findKeyFrom` finds nothing when no key in the scanned window is
pressed. -/
theorem findKeyFrom_none (keys : Nat → Bool) (fuel : Nat) :
    ∀ i, (∀ j, i ≤ j → j < i + fuel → keys j = false) →
      findKeyFrom keys i fuel = none := by
  induction fuel with
  | zero => intro i _; rfl
  | succ fuel ih =>
    intro i h
    have h0 : keys i = false := h i le_rfl (by omega)
    simp only [findKeyFrom, h0, Bool.false_eq_true, if_false]
    exact ih (i + 1) (fun j hj1 hj2 => h j (by omega) (by omega))

/-- `findKeyFrom` returns the lowest pressed index of the scanned window:
the loop breaks at the first hit. -/
theorem findKeyFrom_lowest (keys : Nat → Bool) (fuel : Nat) :
    ∀ i k, i ≤ k → k < i + fuel → keys k = true →
      (∀ j, i ≤ j → j < k → keys j = false) →
      findKeyFrom keys i fuel = some k := by
  induction fuel with
  | zero => intro i k h1 h2 _ _; omega
  | succ fuel ih =>
    intro i k h1 h2 h3 h4
    rcases Nat.eq_or_lt_of_le h1 with rfl | hik
    · simp [findKeyFrom, h3]
    · have h0 : keys i = false := h4 i le_rfl hik
      simp only [findKeyFrom, h0, Bool.false_eq_true, if_false]
      exact ih (i + 1) k hik (by omega) h3 (fun j hj1 hj2 => h4 j (by omega) hj2)

/-- Claim C7: a tick executing `FX0A` (the two bytes at `pc` being
`0xF0 + X` and `0x0A`) with no key pressed returns the machine completely
unchanged — the fetch advance of 2 is undone, so `pc` is unchanged across
the whole tick and the instruction re-executes; with at least one key
pressed, `Vx` receives the lowest-indexed pressed key and `pc` advances
normally by 2. -/
theorem c7_fx0a_wait_for_key (r X : Nat) (m : Machine) (hX : X < 16)
    (hpc : m.pc + 1 < 4096)
    (hhi : m.ram m.pc = 240 + X) (hlo : m.ram (m.pc + 1) = 10) :
    ((∀ i, i < 16 → m.keys i = false) → tick r m = ExecResult.ok m) ∧
    (∀ k, k < 16 → m.keys k = true → (∀ j, j < k → m.keys j = false) →
      tick r m = ExecResult.ok { m with pc := m.pc + 2, v_reg := updN m.v_reg X k }) := by
  have hmod : (m.pc + 1) % 65536 = m.pc + 1 := Nat.mod_eq_of_lt (by omega)
  have hop : m.fetch.1 = (240 + X) * 256 + 10 := by
    show (m.ram m.pc <<< 8) ||| m.ram ((m.pc + 1) % 65536) = _
    rw [hmod, hhi, hlo, shiftLeft8_lor (240 + X) 10 (by omega)]
  have e1 : ((240 + X) * 256 + 10) / 4096 % 16 = 15 := by omega
  have e2 : ((240 + X) * 256 + 10) / 256 % 16 = X := by omega
  have e3 : ((240 + X) * 256 + 10) / 16 % 16 = 0 := by omega
  have e4 : ((240 + X) * 256 + 10) % 16 = 10 := by omega
  have hpc2 : (m.pc + 2) % 65536 = m.pc + 2 := Nat.mod_eq_of_lt (by omega)
  have hback : (m.pc + 2 + 65534) % 65536 = m.pc := by omega
  constructor
  · intro hnk
    have hfind : findKeyFrom m.keys 0 16 = none :=
      findKeyFrom_none m.keys 16 0 (fun j _ hj2 => hnk j (by omega))
    show execute r m.fetch.1 m.fetch.2 = _
    rw [hop]
    simp only [execute, e1, e2, e3, e4, Machine.fetch]
    norm_num [hfind, hpc2, hback]
  · intro k hk hkey hmin
    have hfind : findKeyFrom m.keys 0 16 = some k :=
      findKeyFrom_lowest m.keys 16 0 k (by omega) (by omega) hkey
        (fun j _ hj2 => hmin j hj2)
    show execute r m.fetch.1 m.fetch.2 = _
    rw [hop]
    simp only [execute, e1, e2, e3, e4, Machine.fetch]
    norm_num [hfind, hpc2]


/-- Witness for C7: with no key pressed the tick is the identity on `c7M`;
with keys 3 and 7 pressed, `V3` receives key 3 and `pc` moves to 0x202. -/
theorem c7_fx0a_wait_for_key_witness :
    tick 0 c7M = ExecResult.ok c7M ∧
    tick 0 c7Mk =
      ExecResult.ok { c7Mk with pc := c7Mk.pc + 2, v_reg := updN c7Mk.v_reg 3 3 } :=
  ⟨(c7_fx0a_wait_for_key 0 3 c7M (by decide) (by decide) (by decide) (by decide)).1
      (by decide),
   (c7_fx0a_wait_for_key 0 3 c7Mk (by decide) (by decide) (by decide) (by decide)).2
      3 (by decide) (by decide) (by decide)⟩

/-! ### C3 — call then return restores pc past the call site -/

/-- Claim C3: from any state about to execute a call `2NNN` (high byte
`0x20 + A`, low byte `lo`, so `NNN = A * 256 + lo`) whose target holds the
return opcode `00EE`, executing the call tick and then the return tick
restores `pc` to `m.pc + 2` — the value `pc` held right after the call
opcode was fetched, i.e. the instruction immediately after the call site.
The bounds hypotheses keep the two fetches inside RAM (no Rust panic). -/
theorem c3_call_then_return (r1 r2 A lo : Nat) (m : Machine) (hA : A < 16) (hlo : lo < 256)
    (hpc : m.pc + 1 < 4096)
    (hhi : m.ram m.pc = 32 + A) (hloeq : m.ram (m.pc + 1) = lo)
    (hr1 : m.ram (A * 256 + lo) = 0) (hr2 : m.ram (A * 256 + lo + 1) = 238)
    (hnb : A * 256 + lo + 1 < 4096) :
    ∃ m1 m2, tick r1 m = ExecResult.ok m1 ∧ tick r2 m1 = ExecResult.ok m2 ∧
      m2.pc = m.pc + 2 := by
  have hmod1 : (m.pc + 1) % 65536 = m.pc + 1 := Nat.mod_eq_of_lt (by omega)
  have hop1 : m.fetch.1 = (32 + A) * 256 + lo := by
    show (m.ram m.pc <<< 8) ||| m.ram ((m.pc + 1) % 65536) = _
    rw [hmod1, hhi, hloeq, shiftLeft8_lor (32 + A) lo hlo]
  have e1 : ((32 + A) * 256 + lo) / 4096 % 16 = 2 := by omega
  have hNNN : ((32 + A) * 256 + lo) % 4096 = A * 256 + lo := by omega
  have hpc2 : (m.pc + 2) % 65536 = m.pc + 2 := Nat.mod_eq_of_lt (by omega)
  have h1 : tick r1 m = ExecResult.ok
      { m with pc := A * 256 + lo, stack := m.stack ++ [m.pc + 2] } := by
    show execute r1 m.fetch.1 m.fetch.2 = _
    rw [hop1]
    simp only [execute, e1, Machine.fetch, Machine.push]
    norm_num [hNNN, hpc2]
  have hop2 : ({ m with pc := A * 256 + lo, stack := m.stack ++ [m.pc + 2] }
      : Machine).fetch.1 = 238 := by
    show (m.ram (A * 256 + lo) <<< 8) ||| m.ram ((A * 256 + lo + 1) % 65536) = 238
    rw [Nat.mod_eq_of_lt (by omega), hr1, hr2]
    simp
  have h2 : tick r2 { m with pc := A * 256 + lo, stack := m.stack ++ [m.pc + 2] } =
      ExecResult.ok { m with pc := m.pc + 2 } := by
    show execute r2 _ _ = _
    rw [hop2]
    simp only [execute, Machine.fetch, Machine.pop]
    norm_num [List.getLast?_concat, List.dropLast_concat]
  exact ⟨_, _, h1, h2, rfl⟩


/-- Witness for C3 on `c3M`: the call/return pair brings `pc` to 0x202. -/
theorem c3_call_then_return_witness :
    ∃ m1 m2, tick 0 c3M = ExecResult.ok m1 ∧ tick 0 m1 = ExecResult.ok m2 ∧
      m2.pc = c3M.pc + 2 :=
  c3_call_then_return 0 0 3 0 c3M (by decide) (by decide) (by decide) (by decide)
    (by decide) (by decide) (by decide) (by decide)

/-! ### C5 — drawing the same sprite twice restores the screen -/

theorem foldl_nested_pairs {α : Type} (g : α → Nat → Nat → α) (n : Nat) (init : α) :
    (List.range n).foldl (fun a j => (List.range 8).foldl (fun a2 i => g a2 j i) a) init
      = (pairsUpTo n).foldl (fun a p => g a p.1 p.2) init := by
  induction n generalizing init with
  | zero => rfl
  | succ n ih =>
    rw [List.range_succ n, List.foldl_append, pairsUpTo, List.foldl_append, ih, List.foldl_map]
    rfl

theorem pairsUpTo_mem (n : Nat) (p : Nat × Nat) :
    p ∈ pairsUpTo n ↔ p.1 < n ∧ p.2 < 8 := by
  induction n with
  | zero => simp [pairsUpTo]
  | succ n ih =>
    obtain ⟨j, i⟩ := p
    simp only [pairsUpTo, List.mem_append, ih, List.mem_map, List.mem_range] at *
    constructor
    · rintro (⟨h1, h2⟩ | ⟨a, ha, heq⟩)
      · exact ⟨by omega, h2⟩
      · obtain ⟨rfl, rfl⟩ := Prod.mk.inj heq
        exact ⟨by omega, ha⟩
    · rintro ⟨h1, h2⟩
      rcases Nat.lt_or_ge j n with hj | hj
      · exact Or.inl ⟨hj, h2⟩
      · have : j = n := by omega
        subst this
        exact Or.inr ⟨i, h2, rfl⟩

theorem pairsUpTo_nodup (n : Nat) : (pairsUpTo n).Nodup := by
  induction n with
  | zero => simp [pairsUpTo]
  | succ n ih =>
    rw [pairsUpTo, List.nodup_append]
    refine ⟨ih, ?_, ?_⟩
    · exact (List.nodup_range 8).map (fun a b h => (Prod.mk.inj h).2)
    · intro a ha hamem
      have h1 := (pairsUpTo_mem n a).mp ha
      obtain ⟨i, _, rfl⟩ := List.mem_map.mp hamem
      simp at h1

theorem dIdx_inj (x0 y0 n : Nat) (hn : n ≤ 32) :
    ∀ p ∈ pairsUpTo n, ∀ q ∈ pairsUpTo n, dIdx x0 y0 p = dIdx x0 y0 q → p = q := by
  intro p hp q hq h
  obtain ⟨h1, h2⟩ := (pairsUpTo_mem n p).mp hp
  obtain ⟨h3, h4⟩ := (pairsUpTo_mem n q).mp hq
  obtain ⟨pj, pi⟩ := p
  obtain ⟨qj, qi⟩ := q
  simp only [dIdx] at h
  simp only at h1 h2 h3 h4
  have : pj = qj ∧ pi = qi := by omega
  simp [this.1, this.2]

/-- Pointwise characterisation of the `DXYN` loop as a fold of `dStep` over
the visited pairs: provided the visited pairs target pairwise-distinct
pixels, a pixel ends up toggled iff some hitting pair targets it, and the
collision accumulator ends true iff it started true or some hitting pair
targeted an already-lit pixel. -/
theorem foldl_dStep_spec (ramf : Nat → Nat) (ireg x0 y0 : Nat) (L : List (Nat × Nat)) :
    ∀ (s : Nat → Bool) (f : Bool), L.Nodup →
      (∀ p ∈ L, ∀ q ∈ L, dIdx x0 y0 p = dIdx x0 y0 q → p = q) →
      (∀ k, (L.foldl (dStep ramf ireg x0 y0) (s, f)).1 k =
        if ∃ p ∈ L, dHit ramf ireg p ∧ dIdx x0 y0 p = k then !(s k) else s k) ∧
      ((L.foldl (dStep ramf ireg x0 y0) (s, f)).2 = true ↔
        (f = true ∨ ∃ p ∈ L, dHit ramf ireg p ∧ s (dIdx x0 y0 p) = true)) := by
  induction L with
  | nil =>
    intro s f _ _
    constructor
    · intro k; simp
    · simp
  | cons p L ih =>
    intro s f hnd hinj
    have hndL : L.Nodup := (List.nodup_cons.mp hnd).2
    have hpL : p ∉ L := (List.nodup_cons.mp hnd).1
    have hinjL : ∀ a ∈ L, ∀ b ∈ L, dIdx x0 y0 a = dIdx x0 y0 b → a = b :=
      fun a ha b hb => hinj a (List.mem_cons_of_mem p ha) b (List.mem_cons_of_mem p hb)
    by_cases hp : dHit ramf ireg p
    · have hstep : dStep ramf ireg x0 y0 (s, f) p =
          (updB s (dIdx x0 y0 p) (!s (dIdx x0 y0 p)), f || s (dIdx x0 y0 p)) := by
        simp only [dStep, if_pos hp]
      rw [List.foldl_cons, hstep]
      obtain ⟨ihs, ihf⟩ :=
        ih (updB s (dIdx x0 y0 p) (!s (dIdx x0 y0 p))) (f || s (dIdx x0 y0 p)) hndL hinjL
      have hnotp : ∀ q ∈ L, dHit ramf ireg q → dIdx x0 y0 q ≠ dIdx x0 y0 p := by
        intro q hq _ heq
        exact hpL (hinj p (List.mem_cons_self p L) q (List.mem_cons_of_mem p hq) heq.symm ▸ hq)
      constructor
      · intro k
        rw [ihs k]
        by_cases hk : dIdx x0 y0 p = k
        · have hnq : ¬ ∃ q ∈ L, dHit ramf ireg q ∧ dIdx x0 y0 q = k := by
            rintro ⟨q, hqL, hqhit, hqk⟩
            exact hnotp q hqL hqhit (by rw [hqk, ← hk])
          rw [if_neg hnq, if_pos ⟨p, List.mem_cons_self p L, hp, hk⟩]
          subst hk
          simp [updB]
        · have hk' : k ≠ dIdx x0 y0 p := fun h => hk h.symm
          have hupd : updB s (dIdx x0 y0 p) (!s (dIdx x0 y0 p)) k = s k := by
            simp [updB, hk']
          rw [hupd]
          have hiff : (∃ q ∈ L, dHit ramf ireg q ∧ dIdx x0 y0 q = k) ↔
              (∃ q ∈ p :: L, dHit ramf ireg q ∧ dIdx x0 y0 q = k) := by
            constructor
            · rintro ⟨q, hq, h1, h2⟩
              exact ⟨q, List.mem_cons_of_mem p hq, h1, h2⟩
            · rintro ⟨q, hq, h1, h2⟩
              rcases List.mem_cons.mp hq with rfl | hq'
              · exact absurd h2 hk
              · exact ⟨q, hq', h1, h2⟩
          rw [if_congr hiff.symm rfl rfl]
      · rw [ihf]
        have hupd : ∀ q ∈ L, dHit ramf ireg q →
            updB s (dIdx x0 y0 p) (!s (dIdx x0 y0 p)) (dIdx x0 y0 q) = s (dIdx x0 y0 q) := by
          intro q hq hqhit
          simp [updB, hnotp q hq hqhit]
        constructor
        · rintro (hfor | ⟨q, hq, h1, h2⟩)
          · have hfor' : f = true ∨ s (dIdx x0 y0 p) = true := by simpa using hfor
            rcases hfor' with hf | hs
            · exact Or.inl hf
            · exact Or.inr ⟨p, List.mem_cons_self p L, hp, hs⟩
          · exact Or.inr ⟨q, List.mem_cons_of_mem p hq, h1, by rwa [hupd q hq h1] at h2⟩
        · rintro (hf | ⟨q, hq, h1, h2⟩)
          · exact Or.inl (by simp [hf])
          · rcases List.mem_cons.mp hq with rfl | hq'
            · exact Or.inl (by simp [h2])
            · exact Or.inr ⟨q, hq', h1, by rwa [hupd q hq' h1]⟩
    · have hstep : dStep ramf ireg x0 y0 (s, f) p = (s, f) := by
        simp only [dStep, if_neg hp]
      rw [List.foldl_cons, hstep]
      obtain ⟨ihs, ihf⟩ := ih s f hndL hinjL
      have hiff : ∀ P : (Nat × Nat) → Prop,
          ((∃ q ∈ L, dHit ramf ireg q ∧ P q) ↔ (∃ q ∈ p :: L, dHit ramf ireg q ∧ P q)) := by
        intro P
        constructor
        · rintro ⟨q, hq, h1, h2⟩
          exact ⟨q, List.mem_cons_of_mem p hq, h1, h2⟩
        · rintro ⟨q, hq, h1, h2⟩
          rcases List.mem_cons.mp hq with rfl | hq'
          · exact absurd h1 hp
          · exact ⟨q, hq', h1, h2⟩
      constructor
      · intro k
        rw [ihs k]
        rw [if_congr (hiff (fun q => dIdx x0 y0 q = k)).symm rfl rfl]
      · rw [ihf]
        rw [hiff (fun q => s (dIdx x0 y0 q) = true)]

/-- `drawSprite` written as a single fold of `dStep` over the flattened
pair list (the nested row/bit loops flattened by `foldl_nested_pairs`). -/
theorem drawSprite_eq (m : Machine) (b2 b3 b4 : Nat) :
    drawSprite m b2 b3 b4 = { m with
      screen := ((pairsUpTo b4).foldl
        (dStep m.ram m.i_reg (m.v_reg b2) (m.v_reg b3)) (m.screen, false)).1,
      v_reg := updN m.v_reg 15
        (if ((pairsUpTo b4).foldl
          (dStep m.ram m.i_reg (m.v_reg b2) (m.v_reg b3)) (m.screen, false)).2
         then 1 else 0) } := by
  simp only [drawSprite]
  rw [foldl_nested_pairs (fun acc j i =>
    if m.ram ((m.i_reg + j) % 65536) &&& (128 >>> i) ≠ 0 then
      (updB acc.1 (((m.v_reg b3 + j) % 32) * 64 + ((m.v_reg b2 + i) % 64))
        (!acc.1 (((m.v_reg b3 + j) % 32) * 64 + ((m.v_reg b2 + i) % 64))),
       acc.2 || acc.1 (((m.v_reg b3 + j) % 32) * 64 + ((m.v_reg b2 + i) % 64)))
    else acc) b4 (m.screen, false)]
  rfl

/-- Claim C5: executing the same `DXYN` draw twice in succession (same
`Vx`, `Vy` — guaranteed here by `X ≠ 15 ≠ Y`, since the draw only writes
`VF` — same `N`, same index register and sprite bytes, nothing else run in
between) leaves every pixel of the display buffer equal to its value before
the first draw, and the second draw sets `VF` to 1 if the first draw turned
on any pixel.  `hbound` keeps the sprite reads inside RAM (no Rust panic). -/
theorem c5_draw_twice (r X Y N : Nat) (m : Machine) (hX : X < 16) (hY : Y < 16)
    (hN : N < 16) (hXf : X ≠ 15) (hYf : Y ≠ 15) (hbound : m.i_reg + N ≤ 4096) :
    ∃ m1 m2,
      execute r (0xD000 + X * 256 + Y * 16 + N) m = ExecResult.ok m1 ∧
      execute r (0xD000 + X * 256 + Y * 16 + N) m1 = ExecResult.ok m2 ∧
      (∀ k, m2.screen k = m.screen k) ∧
      ((∃ k, m.screen k = false ∧ m1.screen k = true) → m2.v_reg 15 = 1) := by
  have e1 : (0xD000 + X * 256 + Y * 16 + N) / 4096 % 16 = 13 := by omega
  have e2 : (0xD000 + X * 256 + Y * 16 + N) / 256 % 16 = X := by omega
  have e3 : (0xD000 + X * 256 + Y * 16 + N) / 16 % 16 = Y := by omega
  have e4 : (0xD000 + X * 256 + Y * 16 + N) % 16 = N := by omega
  have harm : ∀ mm : Machine, execute r (0xD000 + X * 256 + Y * 16 + N) mm
      = ExecResult.ok (drawSprite mm X Y N) := by
    intro mm
    simp only [execute, e1, e2, e3, e4]
    norm_num
  obtain ⟨hs1, hf1⟩ := foldl_dStep_spec m.ram m.i_reg (m.v_reg X) (m.v_reg Y)
    (pairsUpTo N) m.screen false (pairsUpTo_nodup N)
    (dIdx_inj (m.v_reg X) (m.v_reg Y) N (by omega))
  have hscr1 : ∀ k, (drawSprite m X Y N).screen k =
      if ∃ p ∈ pairsUpTo N, dHit m.ram m.i_reg p ∧ dIdx (m.v_reg X) (m.v_reg Y) p = k
      then !(m.screen k) else m.screen k := by
    intro k
    rw [drawSprite_eq]
    exact hs1 k
  have hram1 : (drawSprite m X Y N).ram = m.ram := by rw [drawSprite_eq]
  have hireg1 : (drawSprite m X Y N).i_reg = m.i_reg := by rw [drawSprite_eq]
  have hreg1X : (drawSprite m X Y N).v_reg X = m.v_reg X := by
    rw [drawSprite_eq]
    exact updN_ne _ _ _ _ hXf
  have hreg1Y : (drawSprite m X Y N).v_reg Y = m.v_reg Y := by
    rw [drawSprite_eq]
    exact updN_ne _ _ _ _ hYf
  have hd2 : drawSprite (drawSprite m X Y N) X Y N = { drawSprite m X Y N with
      screen := ((pairsUpTo N).foldl (dStep m.ram m.i_reg (m.v_reg X) (m.v_reg Y))
        ((drawSprite m X Y N).screen, false)).1,
      v_reg := updN (drawSprite m X Y N).v_reg 15
        (if ((pairsUpTo N).foldl (dStep m.ram m.i_reg (m.v_reg X) (m.v_reg Y))
          ((drawSprite m X Y N).screen, false)).2 then 1 else 0) } := by
    rw [drawSprite_eq (drawSprite m X Y N) X Y N, hram1, hireg1, hreg1X, hreg1Y]
    rfl
  obtain ⟨hs2, hf2⟩ := foldl_dStep_spec m.ram m.i_reg (m.v_reg X) (m.v_reg Y)
    (pairsUpTo N) (drawSprite m X Y N).screen false (pairsUpTo_nodup N)
    (dIdx_inj (m.v_reg X) (m.v_reg Y) N (by omega))
  have hscr2 : ∀ k, (drawSprite (drawSprite m X Y N) X Y N).screen k =
      if ∃ p ∈ pairsUpTo N, dHit m.ram m.i_reg p ∧ dIdx (m.v_reg X) (m.v_reg Y) p = k
      then !((drawSprite m X Y N).screen k) else (drawSprite m X Y N).screen k := by
    intro k
    rw [hd2]
    exact hs2 k
  refine ⟨drawSprite m X Y N, drawSprite (drawSprite m X Y N) X Y N,
    harm m, harm (drawSprite m X Y N), ?_, ?_⟩
  · intro k
    rw [hscr2 k, hscr1 k]
    by_cases hHk : ∃ p ∈ pairsUpTo N,
        dHit m.ram m.i_reg p ∧ dIdx (m.v_reg X) (m.v_reg Y) p = k
    · simp [hHk]
    · simp [hHk]
  · rintro ⟨k, hk0, hk1⟩
    have hHk : ∃ p ∈ pairsUpTo N,
        dHit m.ram m.i_reg p ∧ dIdx (m.v_reg X) (m.v_reg Y) p = k := by
      by_contra hno
      rw [hscr1 k, if_neg hno, hk0] at hk1
      exact absurd hk1 (by simp)
    obtain ⟨p, hpmem, hphit, hpidx⟩ := hHk
    have hv15 : (drawSprite (drawSprite m X Y N) X Y N).v_reg 15 =
        if ((pairsUpTo N).foldl (dStep m.ram m.i_reg (m.v_reg X) (m.v_reg Y))
          ((drawSprite m X Y N).screen, false)).2 then 1 else 0 := by
      rw [hd2]
      simp [updN]
    have hup : (drawSprite m X Y N).screen (dIdx (m.v_reg X) (m.v_reg Y) p) = true := by
      rw [hscr1 (dIdx (m.v_reg X) (m.v_reg Y) p),
        if_pos ⟨p, hpmem, hphit, rfl⟩, hpidx, hk0]
      rfl
    have hflag : ((pairsUpTo N).foldl (dStep m.ram m.i_reg (m.v_reg X) (m.v_reg Y))
        ((drawSprite m X Y N).screen, false)).2 = true := by
      rw [hf2]
      exact Or.inr ⟨p, hpmem, hphit, hup⟩
    rw [hv15, hflag]
    rfl


/-- Witness for C5: the double draw `D015` on `c5M`. -/
theorem c5_draw_twice_witness :
    ∃ m1 m2,
      execute 0 (0xD000 + 0 * 256 + 1 * 16 + 5) c5M = ExecResult.ok m1 ∧
      execute 0 (0xD000 + 0 * 256 + 1 * 16 + 5) m1 = ExecResult.ok m2 ∧
      (∀ k, m2.screen k = c5M.screen k) ∧
      ((∃ k, c5M.screen k = false ∧ m1.screen k = true) → m2.v_reg 15 = 1) :=
  c5_draw_twice 0 0 1 5 c5M (by decide) (by decide) (by decide) (by decide)
    (by decide) (by decide)
